import Mathlib

/-!
Verification of the columnar decoding and row-projection engine of the
`orcxx` / `orcxx_derive` crates (ORC file deserialization).

The Rust sources are shallowly embedded: machine integers become `Int`/`Nat`
(with explicit two's-complement arithmetic where overflow matters), raw
column buffers become lists, fallible code returns `Except`/`Option`
(`none` standing for a Rust `panic`), and the stateful iterators become
explicit state-passing step functions.
-/

/-- Deserialization errors, after `DeserializationError` in
`orcxx/src/deserialize.rs`.  The `MismatchedLength` variant is the one
referenced by the code generated in `orcxx_derive/src/lib.rs`. -/
inductive DeserializationError where
  | mismatchedColumnKind (msg : String)
  | missingField (name : String)
  | usizeOverflow
  | nonEmptyVector
  | utf8Error
  | unexpectedNull (msg : String)
  | mismatchedLength (src dst : Nat)
deriving DecidableEq, Repr

/-- A long column vector batch, after `LongVectorBatch` in
`orcxx/src/vector.rs`: a densely packed data array, an optional validity
bitmap (one byte per element, `0` marks a null), and the element count. -/
structure LongBatch where
  data : List Int
  notNull : Option (List Int)
  numElements : Nat
deriving DecidableEq, Repr

/-- Cursor of `LongVectorBatchIterator` (`orcxx/src/vector.rs`): the data
pointer position and the validity-bitmap position. -/
structure LongBatchIter where
  dataIndex : Nat
  notNullIndex : Nat
deriving DecidableEq, Repr

/-- One step of `LongVectorBatchIterator::next` (`orcxx/src/vector.rs`,
lines 455-484).  Raw pointer reads are modelled with `List.getD`; the
theorems about this function restrict attention to in-bounds states. -/
def lviNext (b : LongBatch) (s : LongBatchIter) : Option (Option Int) × LongBatchIter :=
  if b.numElements ≤ s.notNullIndex then (none, s)
  else
    match b.notNull with
    | some nn =>
      if nn.getD s.notNullIndex 1 = 0 then
        (some none, { s with notNullIndex := s.notNullIndex + 1 })
      else
        (some (some (b.data.getD s.dataIndex 0)),
          { dataIndex := s.dataIndex + 1, notNullIndex := s.notNullIndex + 1 })
    | none =>
      (some (some (b.data.getD s.dataIndex 0)),
        { dataIndex := s.dataIndex + 1, notNullIndex := s.notNullIndex + 1 })

/-- Collect at most `fuel` items from `LongVectorBatchIterator`, starting at
state `s` and stopping when the iterator reports exhaustion. -/
def lviRunFrom (b : LongBatch) : Nat → LongBatchIter → List (Option Int)
  | 0, _ => []
  | fuel + 1, s =>
    match lviNext b s with
    | (none, _) => []
    | (some item, s1) => item :: lviRunFrom b fuel s1

/-- Full run of `LongVectorBatchIterator` from the initial state (both
cursors at zero, as built by `LongVectorBatch::iter`). -/
def lviRun (b : LongBatch) (fuel : Nat) : List (Option Int) :=
  lviRunFrom b fuel ⟨0, 0⟩

/-- Result of writing the values `vals` element-wise over the front of
`dst`, as the Rust loop `for (s, d) in src.iter().zip(dst.iter_mut())`
does: exactly `min vals.length dst.length` slots are written, the rest of
`dst` is left unchanged. -/
def overwriteFront (vals : List α) (dst : List α) : List α :=
  vals.take dst.length ++ dst.drop vals.length

/-- The `OrcDeserialize for Option<i64>` implementation produced by the
`impl_scalar` macro (`orcxx/src/deserialize.rs`, lines 158-178): zip the
null-aware batch iterator with the destination (the `i64` cast is the
identity and never fails). -/
def readOptLong (src : LongBatch) (dst : List (Option Int)) :
    Except DeserializationError Unit × List (Option Int) :=
  let items := lviRun src src.numElements
  (.ok (), overwriteFront items dst)

/-- The `OrcDeserialize for i64` implementation produced by the
`impl_scalar` macro (`orcxx/src/deserialize.rs`, lines 128-156): if the
batch has a validity bitmap at all, fail with `UnexpectedNull` before the
copy loop; otherwise zip the batch iterator (whose items are all `some`)
with the destination. -/
def readReqLong (src : LongBatch) (dst : List Int) :
    Except DeserializationError Unit × List Int :=
  if src.notNull.isSome then
    (.error (.unexpectedNull "i64 column contains nulls"), dst)
  else
    let items := (lviRun src src.numElements).map (fun s => s.getD 0)
    (.ok (), overwriteFront items dst)

/-- A struct column vector batch restricted to long-typed field columns,
after `StructVectorBatch` in `orcxx/src/vector.rs`. -/
structure StructBatch where
  fields : List LongBatch
  notNull : Option (List Int)
  numElements : Nat
deriving DecidableEq, Repr

/-- Destination initialisation emitted by `orcxx_derive::impl_struct` for a
required record: without a validity bitmap every destination slot is reset
to `Default::default()`; with a bitmap, `dst.iter_mut().zip(not_null)`
resets exactly the slots whose bitmap byte is non-zero. -/
def initDefaultsReq (notNull : Option (List Int)) (dst : List Int) : List Int :=
  match notNull with
  | none => dst.map (fun _ => 0)
  | some nn =>
    (dst.zip nn).map (fun p => if p.2 ≠ 0 then 0 else p.1) ++ dst.drop nn.length

/-- The `OrcDeserialize::read_from_vector_batch` implementation generated by
`orcxx_derive::impl_struct` (`orcxx_derive/src/lib.rs`, lines 234-294) for a
record with a single required `i64` field: cast to a struct batch, assert
the column count (`none` models that panic), error with `MismatchedLength`
if the source holds more elements than the destination, initialise the
destination, then decode the field column in place and return the element
count. -/
def readStructLong (src : StructBatch) (dst : List Int) :
    Option (Except DeserializationError Nat × List Int) :=
  match src.fields with
  | [col] =>
    if dst.length < src.numElements then
      some (.error (.mismatchedLength src.numElements dst.length), dst)
    else
      let dst1 := initDefaultsReq src.notNull dst
      match readReqLong col dst1 with
      | (.error e, dst2) => some (.error e, dst2)
      | (.ok _, dst2) => some (.ok src.numElements, dst2)
  | _ => none

/-- Loop of the `build_list_item!` macro (`orcxx/src/deserialize.rs`, lines
249-273): pop one enumerated child element, append it, and stop when its
index is the last one of the range.  The Rust comparison is
`i == range.end - 1` on `usize`; it is modelled as `i + 1 = endIdx`, which
agrees with the release-mode wrapping comparison at every reachable index.
`none` models the `List too short` panic. -/
def buildListGo (endIdx : Nat) : List (Nat × α) → List α → Option (List α × List (Nat × α))
  | [], _ => none
  | (i, item) :: rest, acc =>
    if i + 1 = endIdx then some (acc ++ [item], rest)
    else buildListGo endIdx rest (acc ++ [item])

/-- The `build_list_item!` macro body: assert that the range is contiguous
with the previous one (`none` models the `Non-continuous list` panic), then
collect the range's elements; returns the built array, the new value of
`last_offset`, and the remaining enumerated elements. -/
def buildListItem (range : Nat × Nat) (lastOffset : Nat) (elems : List (Nat × α)) :
    Option (List α × Nat × List (Nat × α)) :=
  if range.1 = lastOffset then
    (buildListGo range.2 elems []).map (fun p => (p.1, range.2, p.2))
  else none

/-- The per-row loop of `OrcDeserializeOption for Vec<I>`
(`orcxx/src/deserialize.rs`, lines 296-306): null offsets write `none`,
present offsets write the array built by `build_list_item!`. -/
def readOptionsVecLoop (lastOffset : Nat) (elems : List (Nat × α)) :
    List (Option (Nat × Nat)) → Option (List (Option (List α)) × List (Nat × α))
  | [] => some ([], elems)
  | none :: rest =>
    (readOptionsVecLoop lastOffset elems rest).map (fun p => (none :: p.1, p.2))
  | some range :: rest =>
    match buildListItem range lastOffset elems with
    | none => none
    | some (arr, newLast, elems1) =>
      (readOptionsVecLoop newLast elems1 rest).map (fun p => (some arr :: p.1, p.2))

/-- `OrcDeserializeOption for Vec<I>` (`orcxx/src/deserialize.rs`, lines
280-313), taken after the child column has been decoded into the flat list
`elements`: check the destination length (`assert_eq!` in
`init_list_read!`), run the per-row loop over the offsets, and panic with
`List too long` (modelled as `none`) if enumerated child elements remain. -/
def readOptionsVec (offsets : List (Option (Nat × Nat))) (elements : List α)
    (dst : List (Option (List α))) : Option (List (Option (List α))) :=
  if dst.length = offsets.length then
    match readOptionsVecLoop 0 elements.enum offsets with
    | none => none
    | some (result, leftover) => if leftover.isEmpty then some result else none
  else none

/-- The ORC type tree, after `Kind` in `kind.rs`; struct fields are the
ordered `(name, kind)` pairs used by `orcxx/src/deserialize.rs` and the
code generated by `orcxx_derive`. -/
inductive Kind where
  | boolean
  | byte
  | short
  | int
  | long
  | float
  | double
  | string
  | binary
  | timestamp
  | list (inner : Kind)
  | map (key value : Kind)
  | struct (fields : List (String × Kind))
  | union (alternatives : List Kind)
  | decimal (precision scale : Nat)
  | date
  | varchar (maxLength : Nat)
  | char (maxLength : Nat)
  | timestampInstant

mutual

/-- Structural equality of `Kind`, after the derived `PartialEq`
(field order included). -/
def Kind.beq : Kind → Kind → Bool
  | .boolean, .boolean => true
  | .byte, .byte => true
  | .short, .short => true
  | .int, .int => true
  | .long, .long => true
  | .float, .float => true
  | .double, .double => true
  | .string, .string => true
  | .binary, .binary => true
  | .timestamp, .timestamp => true
  | .list a, .list b => Kind.beq a b
  | .map k v, .map k2 v2 => Kind.beq k k2 && Kind.beq v v2
  | .struct fs, .struct gs => Kind.beqFields fs gs
  | .union xs, .union ys => Kind.beqList xs ys
  | .decimal p s, .decimal p2 s2 => p == p2 && s == s2
  | .date, .date => true
  | .varchar n, .varchar m => n == m
  | .char n, .char m => n == m
  | .timestampInstant, .timestampInstant => true
  | _, _ => false

/-- Structural equality of struct field lists. -/
def Kind.beqFields : List (String × Kind) → List (String × Kind) → Bool
  | [], [] => true
  | (n, k) :: rest, (n2, k2) :: rest2 =>
    n == n2 && Kind.beq k k2 && Kind.beqFields rest rest2
  | _, _ => false

/-- Structural equality of kind lists. -/
def Kind.beqList : List Kind → List Kind → Bool
  | [], [] => true
  | k :: rest, k2 :: rest2 => Kind.beq k k2 && Kind.beqList rest rest2
  | _, _ => false

end

mutual

/-- Rendering of a `Kind` after the derived `Debug` implementation (used in
the `check_kind` diagnostics through the Rust format specifier for debug
output). -/
def kindDebug : Kind → String
  | .boolean => "Boolean"
  | .byte => "Byte"
  | .short => "Short"
  | .int => "Int"
  | .long => "Long"
  | .float => "Float"
  | .double => "Double"
  | .string => "String"
  | .binary => "Binary"
  | .timestamp => "Timestamp"
  | .list inner => "List(" ++ kindDebug inner ++ ")"
  | .map k v => "Map \x7b key: " ++ kindDebug k ++ ", value: " ++ kindDebug v ++ " \x7d"
  | .struct fs => "Struct([" ++ kindDebugFields fs ++ "])"
  | .union xs => "Union([" ++ kindDebugList xs ++ "])"
  | .decimal p s =>
    "Decimal \x7b precision: " ++ toString p ++ ", scale: " ++ toString s ++ " \x7d"
  | .date => "Date"
  | .varchar n => "Varchar(" ++ toString n ++ ")"
  | .char n => "Char(" ++ toString n ++ ")"
  | .timestampInstant => "TimestampInstant"

/-- Debug rendering of struct field lists. -/
def kindDebugFields : List (String × Kind) → String
  | [] => ""
  | [(n, k)] => "(" ++ reprStr n ++ ", " ++ kindDebug k ++ ")"
  | (n, k) :: rest =>
    "(" ++ reprStr n ++ ", " ++ kindDebug k ++ "), " ++ kindDebugFields rest

/-- Debug rendering of kind lists. -/
def kindDebugList : List Kind → String
  | [] => ""
  | [k] => kindDebug k
  | k :: rest => kindDebug k ++ ", " ++ kindDebugList rest

end

/-- The helper `check_kind_equals` from `orcxx/src/deserialize.rs` (lines
46-55): strict structural comparison of the actual kind against the one
expected leaf kind. -/
def checkKindEquals (gotKind expected : Kind) (typeName : String) :
    Except String Unit :=
  if Kind.beq gotKind expected then .ok ()
  else
    .error (typeName ++ " must be decoded from ORC " ++ kindDebug expected ++
      ", not ORC " ++ kindDebug gotKind)

/-- `CheckableKind for i64` from the `impl_scalar` macro. -/
def i64CheckKind (kind : Kind) : Except String Unit :=
  checkKindEquals kind .long "i64"

/-- `CheckableKind for String` from the `impl_scalar` macro. -/
def stringCheckKind (kind : Kind) : Except String Unit :=
  checkKindEquals kind .string "String"

/-- `CheckableKind for Vec<u8>` from the `impl_scalar` macro. -/
def binaryCheckKind (kind : Kind) : Except String Unit :=
  checkKindEquals kind .binary "Vec<u8>"

/-- The per-field error collection of the `check_kind` implementation
generated by `orcxx_derive::impl_struct` (`orcxx_derive/src/lib.rs`, lines
160-206): the requested fields (name and sub-check, one entry per struct
field of the Rust record, in declaration order) are paired positionally
with the actual fields; `i` is the state of the `enumerate` counter, which
advances only when the actual-field iterator yields an entry. -/
def genFieldErrors :
    List (String × (Kind → Except String Unit)) → List (String × Kind) → Nat →
      List String
  | [], _, _ => []
  | (rname, _) :: rrest, [], i =>
    ("Field " ++ rname ++ " is missing") :: genFieldErrors rrest [] i
  | (rname, rcheck) :: rrest, (fname, ftype) :: frest, i =>
    (if fname ≠ rname then
      ["Field #" ++ toString i ++ " must be called " ++ rname ++ ", not " ++ fname]
    else
      match rcheck ftype with
      | .error s => ["Field " ++ rname ++ " cannot be decoded: " ++ s]
      | .ok _ => []) ++ genFieldErrors rrest frest (i + 1)

/-- Replacement of every newline by a newline plus tab: the effect of the
Rust call with receiver the joined error list, pattern a newline and
replacement a newline-tab pair, in the generated `check_kind`. -/
def indentNewlines : List Char → List Char
  | [] => []
  | c :: rest =>
    if c = '\n' then '\n' :: '\t' :: indentNewlines rest
    else c :: indentNewlines rest

/-- String version of `indentNewlines`. -/
def indentNewlinesStr (s : String) : String :=
  ⟨indentNewlines s.data⟩

/-- The `check_kind` implementation generated by `orcxx_derive::impl_struct`
(`orcxx_derive/src/lib.rs`, lines 160-206) for a record called `structName`
with the given requested fields: collect all per-field errors and join them
into one indented multi-line message; succeed only when no error was
recorded. -/
def genCheckKind (structName : String)
    (req : List (String × (Kind → Except String Unit))) (kind : Kind) :
    Except String Unit :=
  match kind with
  | .struct fields =>
    let errors := genFieldErrors req fields 0
    if errors.isEmpty then .ok ()
    else
      .error (structName ++ " cannot be decoded:\n\t" ++
        indentNewlinesStr (String.intercalate "\n" errors))
  | _ =>
    .error (structName ++ " must be decoded from Kind::Struct, not " ++
      kindDebug kind)

/-- A decimal batch backed by 64-bit values, after `Decimal64VectorBatch` in
`orcxx/src/vector.rs`. -/
structure Dec64Batch where
  values : List Int
  notNull : Option (List Int)
  numElements : Nat
  scale : Nat
deriving DecidableEq, Repr

/-- A decimal batch backed by 128-bit values, after `Decimal128VectorBatch`
in `orcxx/src/vector.rs`; each payload entry is the pair of the
`getHighBits` value (an `i64`) and the `getLowBits` value (a `u64`) of the
opaque C++ `Int128`. -/
structure Dec128Batch where
  values : List (Int × Nat)
  notNull : Option (List Int)
  numElements : Nat
  scale : Nat
deriving DecidableEq, Repr

/-- A raw decimal column buffer: what the reader actually materialised,
either 64-bit or 128-bit backed. -/
inductive DecimalVectorBatch where
  | d64 (b : Dec64Batch)
  | d128 (b : Dec128Batch)
deriving DecidableEq, Repr

/-- `BorrowedColumnVectorBatch::try_into_decimals64`: succeeds exactly when
the buffer is 64-bit backed. -/
def tryIntoDecimals64 : DecimalVectorBatch → Except String Dec64Batch
  | .d64 b => .ok b
  | .d128 _ => .error "not a Decimal64VectorBatch"

/-- `BorrowedColumnVectorBatch::try_into_decimals128`: succeeds exactly when
the buffer is 128-bit backed. -/
def tryIntoDecimals128 : DecimalVectorBatch → Except String Dec128Batch
  | .d64 _ => .error "not a Decimal128VectorBatch"
  | .d128 b => .ok b

/-- The decimal alternatives of the `ColumnTree` sum type in
`structured_reader.rs`. -/
inductive DecColumnTree where
  | decimal64 (b : Dec64Batch)
  | decimal128 (b : Dec128Batch)
deriving DecidableEq, Repr

/-- The `Kind::Decimal` arm of `columnvectorbatch_to_columntree`
(`structured_reader.rs`, lines 227-234): try the 64-bit accessor first and
fall back to the 128-bit one; the declared precision and scale of the kind
are ignored by the dispatch.  `none` models the `expect` panic when neither
cast succeeds. -/
def decimalColumnTree (vb : DecimalVectorBatch) (precision scale : Nat) :
    Option DecColumnTree :=
  match tryIntoDecimals64 vb with
  | .ok b => some (.decimal64 b)
  | .error _ =>
    match tryIntoDecimals128 vb with
    | .ok b => some (.decimal128 b)
    | .error _ => none

/-- Two's-complement 128-bit pattern of an integer. -/
def toU128 (x : Int) : Nat :=
  (x % (2 : Int) ^ 128).toNat

/-- Signed value of a 128-bit two's-complement pattern. -/
def ofU128 (n : Nat) : Int :=
  if n < 2 ^ 127 then (n : Int) else (n : Int) - 2 ^ 128

/-- The reconstruction expression of
`Decimal128VectorBatchIterator::next` (`orcxx/src/vector.rs`, line 1284):
the high half cast to `i128`, shifted left by 64 bits, bitwise-or the
low half cast to `i128`, computed on 128-bit two's-complement patterns. -/
def i128FromHalves (high : Int) (low : Nat) : Int :=
  ofU128 (((toU128 high <<< 64) % 2 ^ 128) ||| low % 2 ^ 128)

/-- A `rust_decimal` value as produced by the constructor taking a 128-bit
mantissa together with a scale. -/
structure RustDecimal where
  mantissa : Int
  scale : Nat
deriving DecidableEq, Repr

/-- One step of `Decimal128VectorBatchIterator::next` (`orcxx/src/vector.rs`,
lines 1251-1288): same null-skipping cursor discipline as the long
iterator, with the payload recombined from its two halves and paired with
the batch scale. -/
def dec128Next (b : Dec128Batch) (s : LongBatchIter) :
    Option (Option RustDecimal) × LongBatchIter :=
  if b.numElements ≤ s.notNullIndex then (none, s)
  else
    match b.notNull with
    | some nn =>
      if nn.getD s.notNullIndex 1 = 0 then
        (some none, { s with notNullIndex := s.notNullIndex + 1 })
      else
        (some (some ⟨i128FromHalves (b.values.getD s.dataIndex (0, 0)).1
            (b.values.getD s.dataIndex (0, 0)).2, b.scale⟩),
          { dataIndex := s.dataIndex + 1, notNullIndex := s.notNullIndex + 1 })
    | none =>
      (some (some ⟨i128FromHalves (b.values.getD s.dataIndex (0, 0)).1
          (b.values.getD s.dataIndex (0, 0)).2, b.scale⟩),
        { dataIndex := s.dataIndex + 1, notNullIndex := s.notNullIndex + 1 })

/-- State of `RowIterator` (`orcxx/src/row_iterator.rs`) together with the
wrapped `RowReader` handle.  The reader part is modelled from the spec
(its `seek_to_row` and `get_row_number` bindings are not part of the
sources): `fileRows` is the full row sequence of the file, `readerPos` the
next row the reader will deliver, and `prevRow` the reader's current row
number — the number of the first row of the most recently read batch,
`none` before anything was read (the Rust side reports the maximal `u64`
then), and the total row count once the reader has run past the end.
`decodedBatch` holds the meaningful prefix of the decoded buffer (its
length is the `decoded_items` counter); slots of the Rust buffer beyond
`decoded_items` are never read. -/
structure RowIter (α : Type) where
  fileRows : List α
  batchSize : Nat
  readerPos : Nat
  prevRow : Option Nat
  decodedBatch : List α
  index : Nat
  rowCount : Nat

/-- The maximal `u64` value, reported by the reader's row-number accessor
before any batch was read. -/
def u64Max : Nat := 2 ^ 64 - 1

/-- Modelled from the spec: `RowReader.seekToRow` repositions the reader and
sets its current row number to the clamped target row. -/
def seekToRow (s : RowIter α) (k : Nat) : RowIter α :=
  { s with readerPos := min k s.rowCount,
           prevRow := some (min k s.rowCount) }

/-- Modelled from the spec: `RowReader.fill` / `read_into` delivers the next
at-most-`batchSize` rows and sets the reader's current row number to the
batch's first row; it returns `none` when no rows remain. -/
def readInto (s : RowIter α) : Option (List α × RowIter α) :=
  let batch := (s.fileRows.drop s.readerPos).take s.batchSize
  if batch.isEmpty then none
  else
    some (batch, { s with prevRow := some s.readerPos,
                          readerPos := s.readerPos + batch.length })

/-- Modelled from the spec: when `read_into` reports no more rows, the
reader's current row number becomes the total row count. -/
def readIntoFailState (s : RowIter α) : RowIter α :=
  { s with prevRow := some s.rowCount }

/-- `Iterator::next` for `RowIterator` (`orcxx/src/row_iterator.rs`, lines
119-134): serve from the decoded batch, refilling it first when the cursor
has reached `decoded_items`. -/
def RowIter.next (s : RowIter α) : Option α × RowIter α :=
  if s.index = s.decodedBatch.length then
    let s1 := { s with index := 0 }
    match readInto s1 with
    | none => (none, readIntoFailState s1)
    | some (batch, s2) =>
      (batch.get? 0, { s2 with decodedBatch := batch, index := 1 })
  else
    (s.decodedBatch.get? s.index, { s with index := s.index + 1 })

/-- `DoubleEndedIterator::next_back` for `RowIterator`
(`orcxx/src/row_iterator.rs`, lines 140-171): when the cursor is at the
front of the decoded batch, rewind the reader by one batch width, re-read
and re-decode, and resume from the tail.  The outer `none` models the
panics (`assert!` on a failed re-read, `assert_ne!` on an empty batch). -/
def RowIter.nextBack (s : RowIter α) : Option (Option α × RowIter α) :=
  if s.index = 0 then
    let rowNumber := s.prevRow.getD u64Max
    if rowNumber = 0 then some (none, s)
    else
      let seekTo := rowNumber - min rowNumber s.batchSize
      match readInto (seekToRow s seekTo) with
      | none => none
      | some (batch, s2) =>
        if batch.length = 0 then none
        else
          some (batch.get? (batch.length - 1),
            { s2 with decodedBatch := batch, index := batch.length - 1 })
  else
    (some (s.decodedBatch.get? (s.index - 1), { s with index := s.index - 1 }))

/-- `RowIterator::seek` (`orcxx/src/row_iterator.rs`, lines 102-109):
reposition the underlying reader and invalidate the decoded batch. -/
def RowIter.seek (s : RowIter α) (k : Nat) : RowIter α :=
  { seekToRow s k with index := 0, decodedBatch := [] }

/-- `ExactSizeIterator::len` for `RowIterator` (`orcxx/src/row_iterator.rs`,
lines 173-200): the total row count before anything was read, and the
total count minus the current batch's first row number minus the cursor
offset afterwards (the in-range assertions of the Rust code hold on every
reachable state; subtraction is truncated). -/
def RowIter.len (s : RowIter α) : Nat :=
  match s.prevRow with
  | none => s.rowCount
  | some rn => s.rowCount - rn - s.index

/-- A fresh `RowIterator` over the given rows, as built by
`RowIterator::new_with_options` (`orcxx/src/row_iterator.rs`, lines
78-100); batch decoding of a typed record is modelled as delivering the
batch's rows. -/
def mkRowIterator (rows : List α) (batchSize : Nat) : RowIter α :=
  { fileRows := rows, batchSize := batchSize, readerPos := 0,
    prevRow := none, decodedBatch := [], index := 0, rowCount := rows.length }

/-- Repeated `next` calls with the given fuel, returning the yielded rows
and the final state; stops after the first `none`. -/
def nextRunS : RowIter α → Nat → List α × RowIter α
  | s, 0 => ([], s)
  | s, fuel + 1 =>
    match RowIter.next s with
    | (none, s1) => ([], s1)
    | (some a, s1) =>
      let r := nextRunS s1 fuel
      (a :: r.1, r.2)

/-- Repeated `next_back` calls with the given fuel, returning the yielded
rows and the final state; stops at the first exhaustion or panic. -/
def backRunS : RowIter α → Nat → List α × RowIter α
  | s, 0 => ([], s)
  | s, fuel + 1 =>
    match RowIter.nextBack s with
    | none => ([], s)
    | some (none, s1) => ([], s1)
    | some (some a, s1) =>
      let r := backRunS s1 fuel
      (a :: r.1, r.2)

/-- Forward-iteration invariant of `RowIter` states: the decoded batch is a
slice of the file rows starting at `start`, the reader stands right after
it, and the cursor is inside it. -/
def InvF (s : RowIter α) (start : Nat) : Prop :=
  s.rowCount = s.fileRows.length ∧ 0 < s.batchSize ∧
  s.decodedBatch = (s.fileRows.drop start).take s.decodedBatch.length ∧
  s.readerPos = start + s.decodedBatch.length ∧
  s.index ≤ s.decodedBatch.length

deriving instance DecidableEq for Except

/-- Characterisation of a full run of the null-aware long iterator over a
batch with a validity bitmap, at an arbitrary cursor state: it yields one
item per remaining bitmap position, `none` exactly at the zero bytes, and
at each non-zero byte the data slot following the ones already consumed. -/
theorem lviRunFrom_some_spec (data bm : List Int) :
    ∀ (fuel i d : Nat), bm.length ≤ i + fuel →
      (lviRunFrom ⟨data, some bm, bm.length⟩ fuel ⟨d, i⟩).length = bm.length - i ∧
      ∀ j, j < bm.length - i →
        (lviRunFrom ⟨data, some bm, bm.length⟩ fuel ⟨d, i⟩).getD j none =
          if bm.getD (i + j) 1 = 0 then none
          else some (data.getD (d + ((bm.drop i).take j).countP (fun x => x != 0)) 0) := by
  intro fuel
  induction fuel with
  | zero =>
    intro i d h
    refine ⟨by simp [lviRunFrom]; omega, ?_⟩
    intro j hj
    omega
  | succ fuel ih =>
    intro i d h
    by_cases hi : bm.length ≤ i
    · have hstop : lviRunFrom ⟨data, some bm, bm.length⟩ (fuel + 1) ⟨d, i⟩ = [] := by
        simp [lviRunFrom, lviNext, hi]
      refine ⟨by simp [hstop]; omega, ?_⟩
      intro j hj
      omega
    · push_neg at hi
      have hdrop : bm.drop i = bm[i] :: bm.drop (i + 1) :=
        List.drop_eq_getElem_cons hi
      have hgd : bm.getD i 1 = bm[i] := by
        simp [List.getD, List.getElem?_eq_getElem hi]
      by_cases hz : bm.getD i 1 = 0
      · have hz2 : bm[i]?.getD 1 = 0 := by simpa [List.getD] using hz
        have hstep : lviRunFrom ⟨data, some bm, bm.length⟩ (fuel + 1) ⟨d, i⟩ =
            none :: lviRunFrom ⟨data, some bm, bm.length⟩ fuel ⟨d, i + 1⟩ := by
          simp [lviRunFrom, lviNext, Nat.not_le.mpr hi, hz2]
        obtain ⟨ihlen, ihget⟩ := ih (i + 1) d (by omega)
        refine ⟨by simp [hstep, ihlen]; omega, ?_⟩
        intro j hj
        match j with
        | 0 =>
          simp [hstep, hz2, List.getD]
        | j + 1 =>
          have := ihget j (by omega)
          rw [hstep]
          simp only [List.getD_cons_succ]
          rw [this]
          have hcount : ((bm.drop i).take (j + 1)).countP (fun x => x != 0) =
              ((bm.drop (i + 1)).take j).countP (fun x => x != 0) := by
            rw [hdrop]
            simp [List.countP_cons, hgd ▸ hz]
          have hidx : i + (j + 1) = (i + 1) + j := by omega
          rw [hidx, hcount]
      · have hz2 : ¬bm[i]?.getD 1 = 0 := by simpa [List.getD] using hz
        have hstep : lviRunFrom ⟨data, some bm, bm.length⟩ (fuel + 1) ⟨d, i⟩ =
            some (data.getD d 0) ::
              lviRunFrom ⟨data, some bm, bm.length⟩ fuel ⟨d + 1, i + 1⟩ := by
          simp [lviRunFrom, lviNext, Nat.not_le.mpr hi, hz2, List.getD]
        obtain ⟨ihlen, ihget⟩ := ih (i + 1) (d + 1) (by omega)
        refine ⟨by simp [hstep, ihlen]; omega, ?_⟩
        intro j hj
        match j with
        | 0 =>
          simp [hstep, hz2, List.getD]
        | j + 1 =>
          have := ihget j (by omega)
          rw [hstep]
          simp only [List.getD_cons_succ]
          rw [this]
          have hcount : ((bm.drop i).take (j + 1)).countP (fun x => x != 0) =
              ((bm.drop (i + 1)).take j).countP (fun x => x != 0) + 1 := by
            have hne : bm[i] ≠ 0 := hgd ▸ hz
            rw [hdrop, List.take_succ_cons, List.countP_cons]
            simp [bne_iff_ne, hne]
          have hidx : i + (j + 1) = (i + 1) + j := by omega
          rw [hidx, hcount]
          have : d + (((bm.drop (i + 1)).take j).countP (fun x => x != 0) + 1) =
              d + 1 + ((bm.drop (i + 1)).take j).countP (fun x => x != 0) := by omega
          rw [this]

/-- C1: for every scalar column batch of length `n` with a validity bitmap,
the null-aware iterator yields exactly `n` items; position `i` yields null
exactly when the bitmap byte at `i` is zero, and every non-null position
yields the next unread slot of the densely packed data array.  In
particular, a length-4 batch with bitmap `[1,1,1,0]` over packed values
`[10,20,30]` decodes to `[some 10, some 20, some 30, none]`. -/
theorem null_aware_scalar_decode_c1 (data bm : List Int) (fuel : Nat)
    (hfuel : bm.length ≤ fuel) :
    ((lviRun ⟨data, some bm, bm.length⟩ fuel).length = bm.length ∧
      ∀ j, j < bm.length →
        (lviRun ⟨data, some bm, bm.length⟩ fuel).getD j none =
          if bm.getD j 1 = 0 then none
          else some (data.getD ((bm.take j).countP (fun x => x != 0)) 0)) ∧
    readOptLong ⟨[10, 20, 30], some [1, 1, 1, 0], 4⟩ [none, none, none, none] =
      (.ok (), [some 10, some 20, some 30, none]) := by
  obtain ⟨hlen, hget⟩ := lviRunFrom_some_spec data bm fuel 0 0 (by omega)
  refine ⟨⟨by simpa [lviRun] using hlen, ?_⟩, by decide⟩
  intro j hj
  have := hget j (by omega)
  simpa [lviRun] using this

/-- Witness for C1 at the concrete example batch. -/
theorem null_aware_scalar_decode_c1_witness :
    (lviRun ⟨[10, 20, 30], some [1, 1, 1, 0], 4⟩ 4).length = 4 ∧
    (lviRun ⟨[10, 20, 30], some [1, 1, 1, 0], 4⟩ 4).getD 3 none = none ∧
    (lviRun ⟨[10, 20, 30], some [1, 1, 1, 0], 4⟩ 4).getD 1 none = some 20 := by
  have h := null_aware_scalar_decode_c1 [10, 20, 30] [1, 1, 1, 0] 4 (by decide)
  refine ⟨by simpa using h.1.1, ?_, ?_⟩
  · have := h.1.2 3 (by decide)
    simpa using this
  · have := h.1.2 1 (by decide)
    simpa using this

/-- C3: decoding a required (non-`Option`) scalar from a batch that contains
at least one null returns `UnexpectedNull` and leaves the destination
unchanged, no matter how many valid values precede the null. -/
theorem required_null_rejected_c3 (src : LongBatch) (dst : List Int)
    (nn : List Int) (hnn : src.notNull = some nn) (hnull : (0 : Int) ∈ nn) :
    readReqLong src dst =
      (.error (.unexpectedNull "i64 column contains nulls"), dst) := by
  simp [readReqLong, hnn]

/-- Witness for C3: a column whose third byte marks a null, after two valid
values. -/
theorem required_null_rejected_c3_witness :
    readReqLong ⟨[10, 20], some [1, 1, 0], 3⟩ [5, 5, 5] =
      (.error (.unexpectedNull "i64 column contains nulls"), [5, 5, 5]) :=
  required_null_rejected_c3 ⟨[10, 20], some [1, 1, 0], 3⟩ [5, 5, 5] [1, 1, 0]
    rfl (by decide)

/-- Counterexample to C4 as stated: a scalar decode whose destination is
shorter than the source succeeds silently, writing only the first
destination-many values; no length mismatch is reported. -/
theorem length_check_c4_counterexample :
    (⟨[1, 2], none, 2⟩ : LongBatch).numElements ≠ ([0] : List Int).length ∧
    readReqLong ⟨[1, 2], none, 2⟩ [0] = (.ok (), [1]) := by
  constructor
  · decide
  · decide

/-- Run of the long iterator over a batch without a validity bitmap: one
`some` per element, reading consecutive data slots. -/
theorem lviRunFrom_none_eq (n : Nat) (data : List Int) :
    ∀ (fuel i d : Nat),
      lviRunFrom ⟨data, none, n⟩ fuel ⟨d, i⟩ =
        (List.range (min fuel (n - i))).map (fun j => some (data.getD (d + j) 0)) := by
  intro fuel
  induction fuel with
  | zero => intro i d; simp [lviRunFrom]
  | succ fuel ih =>
    intro i d
    by_cases hi : n ≤ i
    · have h0 : n - i = 0 := by omega
      simp [lviRunFrom, lviNext, hi, h0]
    · have hstep : lviRunFrom ⟨data, none, n⟩ (fuel + 1) ⟨d, i⟩ =
          some (data.getD d 0) :: lviRunFrom ⟨data, none, n⟩ fuel ⟨d + 1, i + 1⟩ := by
        simp [lviRunFrom, lviNext, hi, List.getD]
      have hmin : min (fuel + 1) (n - i) = min fuel (n - (i + 1)) + 1 := by omega
      rw [hstep, ih (i + 1) (d + 1), hmin, List.range_succ_eq_map, List.map_cons,
        List.map_map]
      refine congrArg₂ _ (by simp) (List.map_congr_left ?_)
      intro a ha
      simp only [Function.comp_apply, Nat.succ_eq_add_one]
      have hidx : d + (a + 1) = d + 1 + a := by omega
      rw [hidx]

/-- A required scalar decode only ever fails with the `UnexpectedNull`
error: no length check is involved. -/
theorem readReqLong_error_shape (src : LongBatch) (dst : List Int)
    (e : DeserializationError) (d2 : List Int)
    (h : readReqLong src dst = (.error e, d2)) :
    e = .unexpectedNull "i64 column contains nulls" := by
  by_cases hs : src.notNull.isSome
  · simp only [readReqLong, if_pos hs] at h
    injection h with h1 h2
    injection h1 with h3
    exact h3.symm
  · simp only [readReqLong, if_neg hs] at h
    injection h with h1 h2
    exact absurd h1 (by simp)

/-- C4 (amended): the generated struct decode reports `MismatchedLength`
exactly when the source batch has more elements than the destination (a
longer destination is accepted without error), while scalar decode calls
perform no length check at all — the element-wise loop writes
`min source destination` values and succeeds, silently truncating when the
destination is shorter. -/
theorem length_check_c4_amended
    (src : StructBatch) (dst : List Int) (col : LongBatch)
    (hfields : src.fields = [col])
    (lsrc : LongBatch) (ldst : List Int) (hln : lsrc.notNull = none) :
    ((∃ d2, readStructLong src dst =
        some (.error (.mismatchedLength src.numElements dst.length), d2)) ↔
      dst.length < src.numElements) ∧
    readReqLong lsrc ldst =
      (.ok (), overwriteFront
        ((List.range lsrc.numElements).map (fun j => lsrc.data.getD j 0)) ldst) := by
  constructor
  · constructor
    · rintro ⟨d2, hd2⟩
      by_contra hlt
      rw [readStructLong, hfields] at hd2
      simp only [if_neg hlt] at hd2
      rcases hrr : readReqLong col (initDefaultsReq src.notNull dst) with ⟨res, dst2⟩
      rcases res with e | u
      · rw [hrr] at hd2
        simp only [Option.some.injEq, Prod.mk.injEq] at hd2
        have he := Except.error.inj hd2.1
        have hshape := readReqLong_error_shape col (initDefaultsReq src.notNull dst)
          e dst2 hrr
        rw [hshape] at he
        exact DeserializationError.noConfusion he
      · rw [hrr] at hd2
        simp at hd2
    · intro hlt
      refine ⟨dst, ?_⟩
      rw [readStructLong, hfields]
      simp [hlt]
  · obtain ⟨data, nn, n⟩ := lsrc
    cases hln
    have hrun := lviRunFrom_none_eq n data n 0 0
    simp only [readReqLong, lviRun, Option.isSome_none, Bool.false_eq_true,
      if_false, hrun]
    simp [List.map_map, Function.comp_def, Nat.min_self]

/-- Witness for C4 (amended): a one-element struct batch against an empty
destination is rejected, and a two-element scalar column into a
three-slot destination writes two values and keeps the third. -/
theorem length_check_c4_amended_witness :
    ((∃ d2, readStructLong ⟨[⟨[7], none, 1⟩], none, 1⟩ [] =
        some (.error (.mismatchedLength 1 0), d2)) ↔ 0 < 1) ∧
    readReqLong ⟨[1, 2], none, 2⟩ [9, 9, 9] =
      (.ok (), overwriteFront
        ((List.range 2).map (fun j => ([1, 2] : List Int).getD j 0)) [9, 9, 9]) :=
  length_check_c4_amended ⟨[⟨[7], none, 1⟩], none, 1⟩ [] ⟨[7], none, 1⟩ rfl
    ⟨[1, 2], none, 2⟩ [9, 9, 9] rfl

/-- C5, evaluated at the failing input: the list decoder handles a batch of
non-empty lists (first conjunct: two rows, one null, child values sliced by
contiguous ranges), but a present empty list panics with `List too short`
(second conjunct, modelled as `none`) even though the offsets are
contiguous and the child sequence has exactly the implied length — the
`build_list_item!` loop pops an element before testing the end of the
range, so no run can end a zero-length range. -/
theorem list_decode_empty_list_c5 :
    readOptionsVec [some (0, 2), none, some (2, 3)] ([10, 20, 30] : List Int)
        [none, none, none] = some [some [10, 20], none, some [30]] ∧
    readOptionsVec [some (0, 1), some (1, 1)] ([10] : List Int) [none, none] =
      none := by
  constructor
  · decide
  · decide

/-- Per-field error collection against an exhausted actual-field list: every
remaining requested field is reported missing, independently of the
enumeration counter. -/
theorem genFieldErrors_nil_fields
    (req : List (String × (Kind → Except String Unit))) :
    ∀ i, genFieldErrors req [] i =
      req.map (fun r => "Field " ++ r.1 ++ " is missing") := by
  induction req with
  | nil => intro i; simp [genFieldErrors]
  | cons r rrest ih =>
    intro i
    obtain ⟨rname, rcheck⟩ := r
    simp [genFieldErrors, ih i]

/-- Positional characterisation of the generated per-field error collection:
the error list is the concatenation, over the requested positions in
order, of the error (if any) recorded at that position — name mismatches,
recursive failures and missing fields are all collected, none
short-circuits the others. -/
theorem genFieldErrors_eq_join
    (req : List (String × (Kind → Except String Unit))) :
    ∀ (fields : List (String × Kind)) (i : Nat),
      genFieldErrors req fields i =
        ((List.range req.length).map (fun j =>
          match req[j]?, fields[j]? with
          | some (rname, rcheck), some (fname, ftype) =>
            if fname ≠ rname then
              ["Field #" ++ toString (i + j) ++ " must be called " ++ rname ++
                ", not " ++ fname]
            else
              match rcheck ftype with
              | .error s => ["Field " ++ rname ++ " cannot be decoded: " ++ s]
              | .ok _ => []
          | some (rname, _), none => ["Field " ++ rname ++ " is missing"]
          | none, _ => [])).flatten := by
  induction req with
  | nil => intro fields i; simp [genFieldErrors]
  | cons r rrest ih =>
    intro fields i
    obtain ⟨rname, rcheck⟩ := r
    rw [List.length_cons, List.range_succ_eq_map, List.map_cons, List.map_map,
      List.flatten_cons]
    cases fields with
    | nil =>
      simp only [genFieldErrors, List.getElem?_cons_zero, List.getElem?_nil,
        List.singleton_append]
      refine congrArg₂ List.cons rfl ?_
      rw [genFieldErrors_nil_fields rrest i, ← genFieldErrors_nil_fields rrest (i + 1),
        ih [] (i + 1)]
      refine congrArg List.flatten (List.map_congr_left ?_)
      intro j hj
      have hidx : i + (j + 1) = i + 1 + j := by omega
      simp only [Function.comp_apply, Nat.succ_eq_add_one, List.getElem?_cons_succ,
        List.getElem?_nil, hidx]
    | cons f frest =>
      obtain ⟨fname, ftype⟩ := f
      simp only [genFieldErrors, List.getElem?_cons_zero]
      refine congrArg₂ (· ++ ·) rfl ?_
      rw [ih frest (i + 1)]
      refine congrArg List.flatten (List.map_congr_left ?_)
      intro j hj
      have hidx : i + (j + 1) = i + 1 + j := by omega
      simp only [Function.comp_apply, Nat.succ_eq_add_one, List.getElem?_cons_succ,
        hidx]

/-- The generated per-field error collection is empty exactly when every
requested position finds an actual field of the same name whose sub-kind
check passes. -/
theorem genFieldErrors_nil_iff
    (req : List (String × (Kind → Except String Unit))) :
    ∀ (fields : List (String × Kind)) (i : Nat),
      genFieldErrors req fields i = [] ↔
        ∀ (j : Nat) (rname : String) (rcheck : Kind → Except String Unit),
          req[j]? = some (rname, rcheck) →
          ∃ (ftype : Kind), fields[j]? = some (rname, ftype) ∧
            rcheck ftype = .ok () := by
  induction req with
  | nil =>
    intro fields i
    simp [genFieldErrors]
  | cons r rrest ih =>
    intro fields i
    obtain ⟨rname, rcheck⟩ := r
    cases fields with
    | nil =>
      simp only [genFieldErrors]
      constructor
      · intro h
        exact absurd h (by simp)

      · intro h
        obtain ⟨ftype, hf, _⟩ := h 0 rname rcheck (by simp)
        exact absurd hf (by simp)
    | cons f frest =>
      obtain ⟨fname, ftype⟩ := f
      simp only [genFieldErrors, List.append_eq_nil]
      rw [ih frest (i + 1)]
      constructor
      · rintro ⟨h1, h2⟩
        intro j rn rc hr
        cases j with
        | zero =>
          simp only [List.getElem?_cons_zero, Option.some.injEq, Prod.mk.injEq] at hr
          obtain ⟨hrn, hrc⟩ := hr
          by_cases hne : fname ≠ rname
          · simp [hne] at h1
          · push_neg at hne
            rcases hcheck : rcheck ftype with s | u
            · simp [hne, hcheck] at h1
            · exact ⟨ftype, by simp [List.getElem?_cons_zero, hne, hrn],
                by rw [← hrc, hcheck]⟩
        | succ j =>
          simp only [List.getElem?_cons_succ] at hr
          obtain ⟨ft2, hf2, hc2⟩ := h2 j rn rc hr
          exact ⟨ft2, by simpa [List.getElem?_cons_succ] using hf2, hc2⟩
      · intro h
        constructor
        · obtain ⟨ft0, hf0, hc0⟩ := h 0 rname rcheck (by simp)
          simp only [List.getElem?_cons_zero, Option.some.injEq, Prod.mk.injEq] at hf0
          obtain ⟨hfn, hft⟩ := hf0
          rw [if_neg (by simp [hfn]), hft, hc0]
        · intro j rn rc hr
          obtain ⟨ft2, hf2, hc2⟩ := h (j + 1) rn rc (by simpa using hr)
          exact ⟨ft2, by simpa using hf2, hc2⟩

/-- Appending surplus actual fields beyond the requested positions does not
change the collected per-field errors. -/
theorem genFieldErrors_append
    (req : List (String × (Kind → Except String Unit))) :
    ∀ (fields extra : List (String × Kind)) (i : Nat),
      req.length ≤ fields.length →
      genFieldErrors req (fields ++ extra) i = genFieldErrors req fields i := by
  induction req with
  | nil => intro fields extra i _; simp [genFieldErrors]
  | cons r rrest ih =>
    intro fields extra i hlen
    obtain ⟨rname, rcheck⟩ := r
    cases fields with
    | nil => simp at hlen
    | cons f frest =>
      obtain ⟨fname, ftype⟩ := f
      simp only [List.cons_append, genFieldErrors]
      refine congrArg₂ (· ++ ·) rfl ?_
      exact ih frest extra (i + 1) (by simpa using hlen)

/-- C2: the generated `check_kind` compares requested fields to the actual
struct's fields positionally, recording a `must be called` message on a
name mismatch, a `cannot be decoded` message on a recursive sub-kind
failure and an `is missing` message past the end of the actual fields; all
per-field errors are collected positionally (first conjunct), the check
succeeds exactly when no per-field error is recorded (second conjunct),
and requesting `(long1, string1, bytes1)` against actual order
`(long1, bytes1, string1)` reports the mismatches at positions 1 and 2
(third conjunct). -/
theorem check_kind_positional_c2 (name : String)
    (req : List (String × (Kind → Except String Unit)))
    (fields : List (String × Kind)) (i : Nat) :
    (genFieldErrors req fields i =
      ((List.range req.length).map (fun j =>
        match req[j]?, fields[j]? with
        | some (rname, rcheck), some (fname, ftype) =>
          if fname ≠ rname then
            ["Field #" ++ toString (i + j) ++ " must be called " ++ rname ++
              ", not " ++ fname]
          else
            match rcheck ftype with
            | .error s => ["Field " ++ rname ++ " cannot be decoded: " ++ s]
            | .ok _ => []
        | some (rname, _), none => ["Field " ++ rname ++ " is missing"]
        | none, _ => [])).flatten) ∧
    (genCheckKind name req (.struct fields) = .ok () ↔
      ∀ (j : Nat) (rname : String) (rcheck : Kind → Except String Unit),
        req[j]? = some (rname, rcheck) →
        ∃ (ftype : Kind), fields[j]? = some (rname, ftype) ∧
          rcheck ftype = .ok ()) ∧
    genCheckKind "Record"
      [("long1", i64CheckKind), ("string1", stringCheckKind),
        ("bytes1", binaryCheckKind)]
      (.struct [("long1", .long), ("bytes1", .binary), ("string1", .string)]) =
      .error ("Record cannot be decoded:\n\tField #1 must be called string1, not bytes1\n\tField #2 must be called bytes1, not string1") := by
  refine ⟨genFieldErrors_eq_join req fields i, ?_, by decide⟩
  have hiff := genFieldErrors_nil_iff req fields 0
  by_cases he : genFieldErrors req fields 0 = []
  · have hok : genCheckKind name req (.struct fields) = .ok () := by
      simp [genCheckKind, he]
    exact iff_of_true hok (hiff.mp he)
  · have hko : genCheckKind name req (.struct fields) ≠ .ok () := by
      simp [genCheckKind, he]
    exact iff_of_false hko (fun hp => he (hiff.mpr hp))

/-- Witness for C2: the concrete swapped-fields example message. -/
theorem check_kind_positional_c2_witness :
    genCheckKind "Record"
      [("long1", i64CheckKind), ("string1", stringCheckKind),
        ("bytes1", binaryCheckKind)]
      (.struct [("long1", .long), ("bytes1", .binary), ("string1", .string)]) =
      .error ("Record cannot be decoded:\n\tField #1 must be called string1, not bytes1\n\tField #2 must be called bytes1, not string1") :=
  (check_kind_positional_c2 "X" [] [] 0).2.2

/-- C10: the generated `check_kind` never examines actual struct fields
beyond the requested ones — appending surplus trailing fields leaves its
verdict unchanged, and in particular a passing check still passes. -/
theorem surplus_fields_accepted_c10 (name : String)
    (req : List (String × (Kind → Except String Unit)))
    (fields extra : List (String × Kind))
    (hlen : req.length ≤ fields.length) :
    genCheckKind name req (.struct (fields ++ extra)) =
      genCheckKind name req (.struct fields) ∧
    (genCheckKind name req (.struct fields) = .ok () →
      genCheckKind name req (.struct (fields ++ extra)) = .ok ()) := by
  have heq : genCheckKind name req (.struct (fields ++ extra)) =
      genCheckKind name req (.struct fields) := by
    simp only [genCheckKind, genFieldErrors_append req fields extra 0 hlen]
  exact ⟨heq, fun hok => heq.trans hok⟩

/-- Witness for C10: one requested field against two actual columns. -/
theorem surplus_fields_accepted_c10_witness :
    genCheckKind "Rec" [("a", i64CheckKind)]
        (.struct ([("a", Kind.long)] ++ [("b", Kind.string)])) =
      genCheckKind "Rec" [("a", i64CheckKind)] (.struct [("a", Kind.long)]) ∧
    (genCheckKind "Rec" [("a", i64CheckKind)] (.struct [("a", Kind.long)]) =
        .ok () →
      genCheckKind "Rec" [("a", i64CheckKind)]
          (.struct ([("a", Kind.long)] ++ [("b", Kind.string)])) = .ok ()) :=
  surplus_fields_accepted_c10 "Rec" [("a", i64CheckKind)] [("a", Kind.long)]
    [("b", Kind.string)] (by decide)

set_option maxRecDepth 8000 in
/-- Arithmetic content of the 128-bit reconstruction: on an in-range pair of
halves, the shift-or expression computes the mathematical value of the
two's-complement combination. -/
theorem i128FromHalves_eq (high : Int) (low : Nat)
    (h1 : -(2 ^ 63) ≤ high) (h2 : high < 2 ^ 63) (hlow : low < 2 ^ 64) :
    i128FromHalves high low = high * 2 ^ 64 + low := by
  have hmod : low % 2 ^ 128 = low := Nat.mod_eq_of_lt (by omega)
  have hshift : toU128 high <<< 64 = toU128 high * 2 ^ 64 := Nat.shiftLeft_eq _ _
  have hA : (toU128 high * 2 ^ 64) % 2 ^ 128 = (toU128 high % 2 ^ 64) * 2 ^ 64 := by
    have h128 : (2 : Nat) ^ 128 = 2 ^ 64 * 2 ^ 64 := by norm_num
    rw [h128, Nat.mul_mod_mul_right]
  have hor : ((toU128 high % 2 ^ 64) * 2 ^ 64) ||| low =
      (toU128 high % 2 ^ 64) * 2 ^ 64 + low := by
    rw [mul_comm]
    exact (Nat.mul_add_lt_is_or hlow _).symm
  rw [i128FromHalves, hmod, hshift, hA, hor]
  unfold toU128 ofU128
  split <;> omega

/-- C9: the decimal column-tree dispatch depends only on the physical
representation the buffer holds, never on the declared precision or scale
(first conjunct), and the 128-bit iterator reconstructs each non-null
value from its two 64-bit halves as the signed 128-bit combination
`high * 2^64 + low`, interpreted at the batch's declared scale (second
conjunct). -/
theorem decimal128_reconstruction_c9
    (vb : DecimalVectorBatch) (p1 s1 p2 s2 : Nat)
    (b : Dec128Batch) (s : LongBatchIter) (nn : List Int)
    (high : Int) (low : Nat)
    (hnn : b.notNull = some nn)
    (hlt : s.notNullIndex < b.numElements)
    (hpresent : nn.getD s.notNullIndex 1 ≠ 0)
    (hval : b.values.getD s.dataIndex (0, 0) = (high, low))
    (hh1 : -(2 ^ 63) ≤ high) (hh2 : high < 2 ^ 63) (hlow : low < 2 ^ 64) :
    decimalColumnTree vb p1 s1 = decimalColumnTree vb p2 s2 ∧
    (dec128Next b s).1 = some (some ⟨high * 2 ^ 64 + low, b.scale⟩) := by
  constructor
  · cases vb <;> rfl
  · rw [dec128Next, if_neg (by omega)]
    rw [hnn]
    simp only [hval]
    rw [if_neg hpresent]
    rw [i128FromHalves_eq high low hh1 hh2 hlow]

/-- Witness for C9: a one-element 128-bit batch with halves `(0, 5)` at
scale 2, dispatched under two different declared precisions. -/
theorem decimal128_reconstruction_c9_witness :
    decimalColumnTree (.d128 ⟨[(0, 5)], some [1], 1, 2⟩) 10 2 =
      decimalColumnTree (.d128 ⟨[(0, 5)], some [1], 1, 2⟩) 38 0 ∧
    (dec128Next ⟨[(0, 5)], some [1], 1, 2⟩ ⟨0, 0⟩).1 =
      some (some ⟨0 * 2 ^ 64 + (5 : Nat), 2⟩) :=
  decimal128_reconstruction_c9 (.d128 ⟨[(0, 5)], some [1], 1, 2⟩) 10 2 38 0
    ⟨[(0, 5)], some [1], 1, 2⟩ ⟨0, 0⟩ [1] 0 5 rfl (by norm_num) (by decide) rfl
    (by norm_num) (by norm_num) (by norm_num)

/-- Unfolding of `next` while the cursor is inside the decoded batch. -/
theorem RowIter.next_serve (s : RowIter α) (hie : s.index ≠ s.decodedBatch.length) :
    RowIter.next s = (s.decodedBatch.get? s.index, { s with index := s.index + 1 }) := by
  rw [RowIter.next, if_neg hie]

/-- Unfolding of `next` at an exhausted batch when the reader still has
rows: the batch is refilled and its first row served. -/
theorem RowIter.next_refill (s : RowIter α) (hie : s.index = s.decodedBatch.length)
    (hne : ((s.fileRows.drop s.readerPos).take s.batchSize).isEmpty = false) :
    RowIter.next s =
      (((s.fileRows.drop s.readerPos).take s.batchSize).get? 0,
        { s with index := 1,
                 decodedBatch := (s.fileRows.drop s.readerPos).take s.batchSize,
                 prevRow := some s.readerPos,
                 readerPos := s.readerPos +
                   ((s.fileRows.drop s.readerPos).take s.batchSize).length }) := by
  rw [RowIter.next, if_pos hie]
  simp [readInto, hne]

/-- Unfolding of `next` at an exhausted batch when the reader has no rows
left. -/
theorem RowIter.next_end (s : RowIter α) (hie : s.index = s.decodedBatch.length)
    (hemp : ((s.fileRows.drop s.readerPos).take s.batchSize).isEmpty = true) :
    RowIter.next s = (none, { s with index := 0, prevRow := some s.rowCount }) := by
  rw [RowIter.next, if_pos hie]
  simp [readInto, hemp, readIntoFailState]

/-- Forward runs from any state satisfying the forward invariant yield
exactly the file's suffix starting at the state's absolute position. -/
theorem nextRunS_eq (fuel : Nat) :
    ∀ (s : RowIter α) (start : Nat), InvF s start →
      s.fileRows.length - (start + s.index) ≤ fuel →
      (nextRunS s fuel).1 = s.fileRows.drop (start + s.index) := by
  induction fuel with
  | zero =>
    intro s start hInv hf
    obtain ⟨hrc, hb, hdec, hpos, hidx⟩ := hInv
    have : s.fileRows.length ≤ start + s.index := by omega
    simp [nextRunS, List.drop_eq_nil_of_le this]
  | succ fuel ih =>
    intro s start hInv hf
    obtain ⟨hrc, hb, hdec, hpos, hidx⟩ := hInv
    have hlen : s.decodedBatch.length ≤ s.fileRows.length - start := by
      have hl := congrArg List.length hdec
      simp [List.length_take, List.length_drop] at hl
      omega
    by_cases hp : start + s.index < s.fileRows.length
    · by_cases hie : s.index = s.decodedBatch.length
      · have hposp : s.readerPos = start + s.index := by omega
        have hbl : ((s.fileRows.drop s.readerPos).take s.batchSize).length =
            min s.batchSize (s.fileRows.length - s.readerPos) := by
          simp [List.length_take, List.length_drop]
        have hbpos : 0 < ((s.fileRows.drop s.readerPos).take s.batchSize).length := by
          rw [hbl]
          omega
        have hne : ((s.fileRows.drop s.readerPos).take s.batchSize).isEmpty = false := by
          rw [List.isEmpty_eq_false_iff_exists_mem]
          rcases hb2 : (s.fileRows.drop s.readerPos).take s.batchSize with _ | ⟨a, rest⟩
          · rw [hb2] at hbpos; simp at hbpos
          · exact ⟨a, by simp⟩
        set batch := (s.fileRows.drop s.readerPos).take s.batchSize with hbatch
        have hget0 : batch.get? 0 = s.fileRows.get? s.readerPos := by
          rw [hbatch, List.get?_eq_getElem?, List.get?_eq_getElem?,
            List.getElem?_take_of_lt (by omega), List.getElem?_drop]
          simp
        have hsome : batch.get? 0 = some (s.fileRows.get ⟨s.readerPos, by omega⟩) := by
          rw [hget0, List.get?_eq_getElem?, List.getElem?_eq_getElem (by omega)]
          rfl
        have hrun : (nextRunS { s with
            index := 1
            decodedBatch := batch
            prevRow := some s.readerPos
            readerPos := s.readerPos + batch.length } fuel).1 =
            s.fileRows.drop (s.readerPos + 1) := by
          refine ih _ s.readerPos ⟨hrc, hb, ?_, ?_, ?_⟩ ?_
          · show batch = (s.fileRows.drop s.readerPos).take batch.length
            rw [hbatch, List.length_take, ← List.take_take, List.take_length]
          · rfl
          · show 1 ≤ batch.length
            omega
          · show s.fileRows.length - (s.readerPos + 1) ≤ fuel
            omega
        rw [nextRunS]
        simp only [RowIter.next_refill s hie hne, hsome]
        rw [hrun]
        have hdropeq : s.fileRows.drop (start + s.index) =
            s.fileRows.drop s.readerPos := by rw [hposp]
        rw [hdropeq, List.drop_eq_getElem_cons (show s.readerPos < s.fileRows.length
          from by omega), List.get_eq_getElem]
      · have hig : s.index < s.decodedBatch.length := by omega
        have hserve : s.decodedBatch.get? s.index =
            some (s.fileRows.get ⟨start + s.index, hp⟩) := by
          rw [hdec, List.get?_eq_getElem?, List.getElem?_take_of_lt hig,
            List.getElem?_drop, List.getElem?_eq_getElem (by omega)]
          rw [List.get_eq_getElem]
        have hrun : (nextRunS { s with index := s.index + 1 } fuel).1 =
            s.fileRows.drop (start + s.index + 1) := by
          refine ih _ start ⟨hrc, hb, hdec, hpos, by simpa using by omega⟩ ?_
          show s.fileRows.length - (start + (s.index + 1)) ≤ fuel
          omega
        rw [nextRunS]
        simp only [RowIter.next_serve s hie, hserve]
        rw [hrun]
        rw [List.drop_eq_getElem_cons hp, List.get_eq_getElem]
    · have hend : s.fileRows.length ≤ start + s.index := by omega
      have hie : s.index = s.decodedBatch.length := by omega
      have hemp : ((s.fileRows.drop s.readerPos).take s.batchSize).isEmpty = true := by
        have : s.fileRows.drop s.readerPos = [] :=
          List.drop_eq_nil_of_le (by omega)
        simp [this]
      rw [nextRunS]
      simp only [RowIter.next_end s hie hemp]
      simp [List.drop_eq_nil_of_le hend]

/-- C6: after `seek(k)` on a row iterator, iterating forward yields exactly
the suffix of the file's row sequence starting at row `k` (first
conjunct), `len()` immediately after the seek equals `total_rows - k`
(second conjunct), and in general `len()` equals the total row count minus
the current batch's first row number minus the cursor offset (third
conjunct). -/
theorem seek_then_iterate_c6 (s t : RowIter α) (k fuel rn : Nat)
    (hrc : s.rowCount = s.fileRows.length) (hb : 0 < s.batchSize)
    (hk : k ≤ s.fileRows.length) (hfuel : s.fileRows.length - k ≤ fuel)
    (ht : t.prevRow = some rn) :
    (nextRunS (s.seek k) fuel).1 = s.fileRows.drop k ∧
    (s.seek k).len = s.fileRows.length - k ∧
    t.len = t.rowCount - rn - t.index := by
  refine ⟨?_, ?_, ?_⟩
  · have hinv : InvF (s.seek k) k := by
      refine ⟨?_, ?_, ?_, ?_, ?_⟩
      · simp [RowIter.seek, seekToRow, hrc]
      · simpa [RowIter.seek, seekToRow] using hb
      · simp [RowIter.seek, seekToRow]
      · simp [RowIter.seek, seekToRow]
        omega
      · simp [RowIter.seek, seekToRow]
    have hrun := nextRunS_eq fuel (s.seek k) k hinv
      (by simp [RowIter.seek, seekToRow]; omega)
    simpa [RowIter.seek, seekToRow] using hrun
  · simp [RowIter.len, RowIter.seek, seekToRow]
    omega
  · simp [RowIter.len, ht]

/-- Witness for C6: seeking to row 1 of a three-row file with batch size 2. -/
theorem seek_then_iterate_c6_witness :
    (nextRunS ((mkRowIterator ([10, 20, 30] : List Int) 2).seek 1) 2).1 =
      ([10, 20, 30] : List Int).drop 1 ∧
    ((mkRowIterator ([10, 20, 30] : List Int) 2).seek 1).len = 2 ∧
    ((mkRowIterator ([10, 20, 30] : List Int) 2).seek 1).len =
      ((mkRowIterator ([10, 20, 30] : List Int) 2).seek 1).rowCount - 1 -
        ((mkRowIterator ([10, 20, 30] : List Int) 2).seek 1).index :=
  seek_then_iterate_c6 (mkRowIterator ([10, 20, 30] : List Int) 2)
    ((mkRowIterator ([10, 20, 30] : List Int) 2).seek 1) 1 2 1
    rfl (by decide) (by decide) (by decide) rfl

/-- C7, evaluated at the failing input: over the file `[10, 20, 30]` with
batch size 2, forward iteration to exhaustion yields `[10, 20, 30]`, but
iterating backward from the end then yields `[30, 20, 20, 10]` — row `20`
is duplicated instead of producing the exact reverse `[30, 20, 10]`: the
rewind in `next_back` re-reads a full batch below the current row number
and assumes it ends exactly there, which fails when the current batch
started less than one batch width into the file. -/
theorem backward_iteration_c7 :
    (nextRunS (mkRowIterator ([10, 20, 30] : List Int) 2) 4).1 = [10, 20, 30] ∧
    (backRunS (nextRunS (mkRowIterator ([10, 20, 30] : List Int) 2) 4).2 10).1 =
      [30, 20, 20, 10] := by
  constructor
  · decide
  · decide

/-- C8: decoding the full row sequence through a row iterator yields the
file's row sequence whatever decode batch size is used; in particular two
iterators with different batch sizes yield identical sequences. -/
theorem batch_size_independence_c8 (rows : List α) (b1 b2 f1 f2 : Nat)
    (hb1 : 0 < b1) (hb2 : 0 < b2)
    (hf1 : rows.length ≤ f1) (hf2 : rows.length ≤ f2) :
    (nextRunS (mkRowIterator rows b1) f1).1 = rows ∧
    (nextRunS (mkRowIterator rows b1) f1).1 =
      (nextRunS (mkRowIterator rows b2) f2).1 := by
  have hone : ∀ (b f : Nat), 0 < b → rows.length ≤ f →
      (nextRunS (mkRowIterator rows b) f).1 = rows := by
    intro b f hb hf
    have hinv : InvF (mkRowIterator rows b) 0 := by
      refine ⟨rfl, hb, by simp [mkRowIterator], rfl, by simp [mkRowIterator]⟩
    have hrun := nextRunS_eq f (mkRowIterator rows b) 0 hinv
      (by simp [mkRowIterator]; omega)
    simpa [mkRowIterator] using hrun
  refine ⟨hone b1 f1 hb1 hf1, ?_⟩
  rw [hone b1 f1 hb1 hf1, hone b2 f2 hb2 hf2]

/-- Witness for C8: batch sizes 2 and 3 over a three-row file. -/
theorem batch_size_independence_c8_witness :
    (nextRunS (mkRowIterator ([10, 20, 30] : List Int) 2) 3).1 = [10, 20, 30] ∧
    (nextRunS (mkRowIterator ([10, 20, 30] : List Int) 2) 3).1 =
      (nextRunS (mkRowIterator ([10, 20, 30] : List Int) 3) 5).1 :=
  batch_size_independence_c8 [10, 20, 30] 2 3 3 5 (by decide) (by decide)
    (by decide) (by decide)
